import Mathlib

/-!
A shallow embedding of the gapless audio playback engine of
`src/audioEngine.ts` (class `AudioEngine`), together with proofs of the
behavioural properties claimed of it.

Modelling conventions:

* Device-clock instants and durations are rationals (`ℚ`); the JavaScript numbers of the
  source never hit `NaN` on the paths modelled here (the
  `isNaN` guard in the `currentTime` getter only fires on Web Audio
  anomalies outside the model).
* An `AudioBufferSourceNode` is a `Node` record carrying a fresh id, the
  id of the buffer it plays, its scheduled start instant and offset, and
  three observable flags: whether `stop()` was called, whether it is
  connected to the gain node, and whether an `onended` handler is
  installed.  Nodes that the engine stops and disconnects are moved to a
  `stoppedNodes` log so that "the node was stopped" remains observable
  after the field referencing it is nulled.
* A `setTimeout` whose id is held in `schedulerTimeout` is modelled as an
  `Option SwapTimeout` storing exactly the data captured by the closure in the source (`nextSource`, `nextBuffer`, `nextPath`, `endTime`) plus the
  delay.  `clearTimeout` is dropping the record; a cleared timer can
  therefore never fire in the model, matching JavaScript semantics.
  Overwriting a still-armed timer id without clearing it would leak a
  pending timer; such a leak is recorded in `leakedTimers`, so "at most
  one scheduled swap exists" is the statement that `leakedTimers` stays
  empty in every reachable state.
* The two `async` methods (`loadTrack`, `preloadNextTrack`) are split at
  their `await` points into a synchronous start phase and a resume phase
  that receives the fetch/decode outcome; interleaved operations act on
  the state between the two phases.
-/

namespace AudioEngine

/-- A decoded audio buffer (`AudioBuffer`): an identity and a duration in
seconds. -/
structure Buffer where
  id : Nat
  duration : ℚ
deriving DecidableEq

/-- An `AudioBufferSourceNode` as observed by the engine: identity, the
buffer it was created for, when and at which offset it was told to start,
and whether it has been stopped, is connected, and has an `onended`
handler installed. -/
structure Node where
  id : Nat
  bufferId : Nat
  startWhen : ℚ
  startOffset : ℚ
  stopped : Bool
  connected : Bool
  onendedSet : Bool
deriving DecidableEq

/-- The data captured by the closure passed to `setTimeout` in
`scheduleNextTrack`: the armed node, the preloaded buffer and its path,
the device-clock instant the swap occurs, and the timer delay in
milliseconds. -/
structure SwapTimeout where
  node : Node
  buffer : Buffer
  path : Option String
  endTime : ℚ
  fireAtMs : ℚ
deriving DecidableEq

/-- The mutable fields of class `AudioEngine`, plus the observability
logs described in the module docstring.  `volume` and `isMuted` model the
fields `_volume` and `_isMuted` of the source; `gainValue` models `gainNode.gain.value`;
`onEndedSet` records whether `onEndedCallback` is non-null and
`notifications` counts its invocations; `nextNodeId` is the fresh-name
supply for `createBufferSource()`. -/
structure EngineState where
  currentSource : Option Node
  currentBuffer : Option Buffer
  nextBuffer : Option Buffer
  currentTrackPath : Option String
  nextTrackPath : Option String
  loadingTrackPath : Option String
  nextSourceNode : Option Node
  schedulerTimeout : Option SwapTimeout
  startTime : ℚ
  pauseOffset : ℚ
  isPlaying : Bool
  volume : ℚ
  isMuted : Bool
  gainValue : ℚ
  onEndedSet : Bool
  notifications : Nat
  nextNodeId : Nat
  stoppedNodes : List Node
  leakedTimers : List SwapTimeout
deriving DecidableEq

/-- The state built by the constructor: everything empty, `_volume = 0.7`
and `setVolume(0.7)` applied (so the gain is `0.7`, unmuted). -/
def engineInit : EngineState where
  currentSource := none
  currentBuffer := none
  nextBuffer := none
  currentTrackPath := none
  nextTrackPath := none
  loadingTrackPath := none
  nextSourceNode := none
  schedulerTimeout := none
  startTime := 0
  pauseOffset := 0
  isPlaying := false
  volume := 7/10
  isMuted := false
  gainValue := 7/10
  onEndedSet := false
  notifications := 0
  nextNodeId := 0
  stoppedNodes := []
  leakedTimers := []

/-- Getter `duration`: `this.currentBuffer?.duration || 0`. -/
def duration (s : EngineState) : ℚ :=
  match s.currentBuffer with
  | some b => b.duration
  | none => 0

/-- Getter `currentTime`: `pauseOffset` while not playing, otherwise the
clock-derived position `min (now - startTime) duration`. -/
def currentTime (s : EngineState) (now : ℚ) : ℚ :=
  if s.isPlaying then min (now - s.startTime) (duration s) else s.pauseOffset

/-- Getter `activeTrackPath`. -/
def activeTrackPath (s : EngineState) : Option String :=
  s.currentTrackPath

/-- Marks a node the way `node.stop(); node.disconnect()` leaves it. -/
def stopNode (n : Node) : Node :=
  { n with stopped := true, connected := false }

/-- Method `cancelScheduledTrack`: stop and disconnect the armed next
node if any, then clear the scheduler timeout if any. -/
def cancelScheduledTrack (s : EngineState) : EngineState :=
  let s1 :=
    match s.nextSourceNode with
    | some n =>
        { s with
          nextSourceNode := none
          stoppedNodes := s.stoppedNodes ++ [stopNode n] }
    | none => s
  { s1 with schedulerTimeout := none }

/-- Method `stop`: null the `onended` handler on the current node, stop and disconnect
it, cancel any scheduled next track, and rewind. -/
def stop (s : EngineState) : EngineState :=
  let s1 :=
    match s.currentSource with
    | some cur =>
        { s with
          currentSource := none
          stoppedNodes := s.stoppedNodes ++ [stopNode { cur with onendedSet := false }] }
    | none => s
  let s2 := cancelScheduledTrack s1
  { s2 with isPlaying := false, pauseOffset := 0, startTime := 0 }

/-- Method `pause`: no-op unless playing with a live source; otherwise
freeze `pauseOffset = now - startTime`, discard the node, and cancel any
scheduled next track. -/
def pause (s : EngineState) (now : ℚ) : EngineState :=
  if s.isPlaying then
    match s.currentSource with
    | some cur =>
        cancelScheduledTrack
          { s with
            isPlaying := false
            pauseOffset := now - s.startTime
            currentSource := none
            stoppedNodes := s.stoppedNodes ++ [stopNode { cur with onendedSet := false }] }
    | none => s
  else s

/-- Method `scheduleNextTrack`: guard (`nextBuffer`, `isPlaying`,
`currentSource`, and neither `nextSourceNode` nor `schedulerTimeout`
set), then create a node for the next buffer, start it at
`endTime = now + (duration - currentTime)`, null the `onended` handler on the current
node, and arm the bookkeeping timeout capturing the swap data. -/
def scheduleNextTrack (s : EngineState) (now : ℚ) : EngineState :=
  match s.nextBuffer with
  | none => s
  | some nb =>
    if s.isPlaying then
      match s.currentSource with
      | none => s
      | some cur =>
        if s.nextSourceNode.isSome || s.schedulerTimeout.isSome then s
        else
          let timeRemaining := duration s - currentTime s now
          let endTime := now + timeRemaining
          let nextSource : Node :=
            { id := s.nextNodeId
              bufferId := nb.id
              startWhen := endTime
              startOffset := 0
              stopped := false
              connected := true
              onendedSet := false }
          { s with
            nextSourceNode := some nextSource
            nextNodeId := s.nextNodeId + 1
            currentSource := some { cur with onendedSet := false }
            schedulerTimeout := some
              { node := nextSource
                buffer := nb
                path := s.nextTrackPath
                endTime := endTime
                fireAtMs := timeRemaining * 1000 }
            leakedTimers := s.leakedTimers ++ s.schedulerTimeout.toList }
    else s

/-- Method `play`: no-op if already playing or no current buffer;
otherwise create a node for the current buffer, start it at
`pauseOffset`, set `startTime = now - pauseOffset`, mark playing, and
schedule the next track if a next buffer is bound. -/
def play (s : EngineState) (now : ℚ) : EngineState :=
  if s.isPlaying then s
  else
    match s.currentBuffer with
    | none => s
    | some buf =>
      let node : Node :=
        { id := s.nextNodeId
          bufferId := buf.id
          startWhen := now
          startOffset := s.pauseOffset
          stopped := false
          connected := true
          onendedSet := true }
      let s1 :=
        { s with
          currentSource := some node
          nextNodeId := s.nextNodeId + 1
          startTime := now - s.pauseOffset
          isPlaying := true }
      if s1.nextBuffer.isSome then scheduleNextTrack s1 now else s1

/-- The body of the `setTimeout` callback armed by `scheduleNextTrack`:
swap the captured node, buffer and path into the current slot, empty the
next slot, clear the handle, set `startTime = endTime`, reset
`pauseOffset`, install a fresh `onended` handler on the new current node,
and fire the registered end callback.  A cleared timer no longer exists,
so the function is the identity when no timeout is armed. -/
def fireScheduledSwap (s : EngineState) : EngineState :=
  match s.schedulerTimeout with
  | none => s
  | some t =>
      { s with
        currentSource := some { t.node with onendedSet := true }
        currentBuffer := some t.buffer
        currentTrackPath := t.path
        nextBuffer := none
        nextTrackPath := none
        nextSourceNode := none
        schedulerTimeout := none
        startTime := t.endTime
        pauseOffset := 0
        notifications := s.notifications + (if s.onEndedSet then 1 else 0) }

/-- Method `reset`: stop, then unbind both slots. -/
def reset (s : EngineState) : EngineState :=
  { stop s with
    nextBuffer := none
    nextTrackPath := none
    currentBuffer := none
    currentTrackPath := none }

/-- Method `seek`: no-op without a current buffer; otherwise pause if
playing, clamp the target into `[0, duration]` as the new `pauseOffset`,
and resume if it was playing. -/
def seek (s : EngineState) (time now : ℚ) : EngineState :=
  match s.currentBuffer with
  | none => s
  | some _ =>
    let wasPlaying := s.isPlaying
    let s1 := if wasPlaying then pause s now else s
    let s2 := { s1 with pauseOffset := max 0 (min time (duration s1)) }
    if wasPlaying then play s2 now else s2

/-- Method `setVolume`: clamp into `[0,1]`, store, and write the gain
unless muted. -/
def setVolume (s : EngineState) (val : ℚ) : EngineState :=
  let v := max 0 (min 1 val)
  let s1 := { s with volume := v }
  if s1.isMuted then s1 else { s1 with gainValue := v }

/-- Method `setMute`: store the flag and set the gain to `0` or to the
stored volume. -/
def setMute (s : EngineState) (muted : Bool) : EngineState :=
  { s with isMuted := muted, gainValue := if muted then 0 else s.volume }

/-- Method `playNext`: if the next slot holds the expected track, either
recognise it as already current-and-playing, or stop, promote the next
slot to current, and resume if it was playing.  Returns whether the
promotion (or recognition) occurred. -/
def playNext (s : EngineState) (expectedPath : String) (now : ℚ) : EngineState × Bool :=
  match s.nextBuffer with
  | some nb =>
    if s.nextTrackPath = some expectedPath then
      if s.currentTrackPath = some expectedPath ∧ s.isPlaying then (s, true)
      else
        let wasPlaying := s.isPlaying
        let s1 := stop s
        let s2 :=
          { s1 with
            currentBuffer := some nb
            currentTrackPath := s1.nextTrackPath
            nextBuffer := none
            nextTrackPath := none }
        (if wasPlaying then play s2 now else s2, true)
    else (s, false)
  | none => (s, false)

/-- The body of the `onended` handler installed by `play` (and, with the
same text, by the scheduled-swap callback): on a natural end while
playing, advance to the preloaded track if one is bound, else stop at
position `0`; in both branches fire the registered end callback.  Fires
only when a live current node has a handler installed. -/
def naturalEnd (s : EngineState) (now : ℚ) : EngineState :=
  match s.currentSource with
  | none => s
  | some cur =>
    if cur.onendedSet ∧ s.isPlaying then
      match s.nextBuffer with
      | some _ =>
        let s1 := (playNext s (s.nextTrackPath.getD "") now).1
        { s1 with notifications := s1.notifications + (if s1.onEndedSet then 1 else 0) }
      | none =>
        { s with
          isPlaying := false
          pauseOffset := 0
          notifications := s.notifications + (if s.onEndedSet then 1 else 0) }
    else s

/-- Method `setOnEnded`: register the end callback. -/
def setOnEnded (s : EngineState) : EngineState :=
  { s with onEndedSet := true }

/-- Outcome of a fetch-and-decode: a decoded buffer, or a decode/network
failure. -/
inductive LoadResult where
  | ok (buf : Buffer)
  | err
deriving DecidableEq

/-- How a `loadTrack` call returns to its caller: resolved `true`,
resolved `false` (superseded), or rejected with the decode error. -/
inductive LoadOutcome where
  | success
  | cancelled
  | failure
deriving DecidableEq

/-- Method `loadTrack`, synchronous phase up to the first `await`: stop
playback, record `loadingTrackPath = path`, and either promote an
already-preloaded buffer for this exact path (returning `some true`
synchronously) or clear the stale next slot and proceed to the fetch
(returning `none`). -/
def loadTrackStart (s : EngineState) (path : String) : EngineState × Option Bool :=
  let s1 := { stop s with loadingTrackPath := some path }
  match s1.nextBuffer with
  | some nb =>
    if s1.nextTrackPath = some path then
      ({ s1 with
          currentBuffer := some nb
          currentTrackPath := s1.nextTrackPath
          nextBuffer := none
          nextTrackPath := none
          pauseOffset := 0
          startTime := 0 }, some true)
    else ({ s1 with nextBuffer := none, nextTrackPath := none }, none)
  | none => ({ s1 with nextBuffer := none, nextTrackPath := none }, none)

/-- Method `loadTrack`, resume phase after the fetch/decode settles: on
success, commit only if `loadingTrackPath` still equals the path of this
request (otherwise resolve `false` leaving the state untouched); on failure,
clear `loadingTrackPath` if it is still ours and rethrow. -/
def loadTrackResume (s : EngineState) (path : String) (res : LoadResult) :
    EngineState × LoadOutcome :=
  match res with
  | .ok buf =>
    if s.loadingTrackPath = some path then
      ({ s with
          currentBuffer := some buf
          currentTrackPath := some path
          pauseOffset := 0
          startTime := 0
          loadingTrackPath := none }, .success)
    else (s, .cancelled)
  | .err =>
    if s.loadingTrackPath = some path then
      ({ s with loadingTrackPath := none }, .failure)
    else (s, .failure)

/-- Method `preloadNextTrack`, synchronous phase up to the first `await`:
return early if this exact path is already preloaded, else record
`nextTrackPath = path` and proceed to the fetch.  The boolean reports
whether the fetch proceeds. -/
def preloadStart (s : EngineState) (path : String) : EngineState × Bool :=
  if s.nextTrackPath = some path ∧ s.nextBuffer.isSome then (s, false)
  else ({ s with nextTrackPath := some path }, true)

/-- Method `preloadNextTrack`, resume phase: commit the decoded buffer
only if `nextTrackPath` still equals the path of this request, and in that
case, if playing, cancel any existing schedule (which would use the old
buffer) and re-arm the scheduler; decode failures are logged only. -/
def preloadResume (s : EngineState) (path : String) (res : LoadResult) (now : ℚ) :
    EngineState :=
  match res with
  | .err => s
  | .ok buf =>
    if s.nextTrackPath = some path then
      let s1 := { s with nextBuffer := some buf }
      if s1.isPlaying then scheduleNextTrack (cancelScheduledTrack s1) now
      else s1
    else s

/-- Every externally triggerable transition of the engine: the public
control surface, the two halves of each async method, and the two
callback bodies (timer swap and natural end). -/
inductive Op where
  | opPlay (now : ℚ)
  | opPause (now : ℚ)
  | opStop
  | opReset
  | opSeek (t now : ℚ)
  | opSetVolume (v : ℚ)
  | opSetMute (m : Bool)
  | opSchedule (now : ℚ)
  | opLoadStart (path : String)
  | opLoadResume (path : String) (res : LoadResult)
  | opPreloadStart (path : String)
  | opPreloadResume (path : String) (res : LoadResult) (now : ℚ)
  | opPlayNext (path : String) (now : ℚ)
  | opFireSwap
  | opNaturalEnd (now : ℚ)
  | opSetOnEnded

/-- The transition function applying one operation. -/
def step (s : EngineState) (op : Op) : EngineState :=
  match op with
  | .opPlay now => play s now
  | .opPause now => pause s now
  | .opStop => stop s
  | .opReset => reset s
  | .opSeek t now => seek s t now
  | .opSetVolume v => setVolume s v
  | .opSetMute m => setMute s m
  | .opSchedule now => scheduleNextTrack s now
  | .opLoadStart path => (loadTrackStart s path).1
  | .opLoadResume path res => (loadTrackResume s path res).1
  | .opPreloadStart path => (preloadStart s path).1
  | .opPreloadResume path res now => preloadResume s path res now
  | .opPlayNext path now => (playNext s path now).1
  | .opFireSwap => fireScheduledSwap s
  | .opNaturalEnd now => naturalEnd s now
  | .opSetOnEnded => setOnEnded s

/-- States reachable from the constructor state by engine operations. -/
inductive Reachable : EngineState → Prop where
  | init : Reachable engineInit
  | step {s : EngineState} (op : Op) : Reachable s → Reachable (step s op)

/-- The structural invariant tying the scheduled-swap machinery to the
transport state: an armed node or timer exists only while playing with a
next buffer bound, and playing implies a live current node over a bound
current buffer. -/
def goodInv (s : EngineState) : Bool :=
  (!(s.schedulerTimeout.isSome || s.nextSourceNode.isSome) ||
      (s.isPlaying && s.nextBuffer.isSome)) &&
    (!s.isPlaying || (s.currentSource.isSome && s.currentBuffer.isSome))

/-- The inductive invariant: `goodInv` holds and no pending timer was
ever leaked by overwriting a live `schedulerTimeout`. -/
def Good (s : EngineState) : Prop :=
  goodInv s = true ∧ s.leakedTimers = []




/-- Sample buffer used in concrete witnesses: track "a", 180 seconds. -/
def bufA : Buffer := { id := 0, duration := 180 }

/-- Sample buffer used in concrete witnesses: track "b", 200 seconds. -/
def bufB : Buffer := { id := 1, duration := 200 }

/-- Sample live playback node for `bufA`. -/
def nodeA : Node :=
  { id := 0, bufferId := 0, startWhen := 0, startOffset := 0,
    stopped := false, connected := true, onendedSet := true }

/-- Sample state: playing track "a" from its start, end callback
registered, no preload. -/
def sPlaying : EngineState :=
  { engineInit with
    currentBuffer := some bufA
    currentTrackPath := some "a"
    currentSource := some nodeA
    isPlaying := true
    onEndedSet := true
    nextNodeId := 1 }

/-- Sample state: `sPlaying` with track "b" preloaded into the next
slot, nothing scheduled yet. -/
def sReady : EngineState :=
  { sPlaying with nextBuffer := some bufB, nextTrackPath := some "b" }

/-- C1: `scheduleNextTrack` arms only when playing with a live current
node, a bound next buffer, and no existing swap handle — in every other
state it leaves the state unchanged; when it arms, the next node is
scheduled to start exactly at `now + (duration - currentTime)`, the
handle captures that instant and the next buffer and path, and the
natural-end handler on the current node is disabled. -/
theorem scheduleNextTrack_spec (s : EngineState) (now : ℚ) :
    (¬(s.nextBuffer.isSome = true ∧ s.isPlaying = true ∧ s.currentSource.isSome = true ∧
        s.nextSourceNode = none ∧ s.schedulerTimeout = none) →
      scheduleNextTrack s now = s) ∧
    (∀ nb cur, s.nextBuffer = some nb → s.isPlaying = true → s.currentSource = some cur →
      s.nextSourceNode = none → s.schedulerTimeout = none →
      ∃ t : SwapTimeout,
        (scheduleNextTrack s now).schedulerTimeout = some t ∧
        t.endTime = now + (duration s - currentTime s now) ∧
        t.node.startWhen = now + (duration s - currentTime s now) ∧
        t.node.bufferId = nb.id ∧
        t.buffer = nb ∧
        t.path = s.nextTrackPath ∧
        (scheduleNextTrack s now).nextSourceNode = some t.node ∧
        (scheduleNextTrack s now).currentSource = some { cur with onendedSet := false }) := by
  constructor
  · intro h
    unfold scheduleNextTrack
    cases hnb : s.nextBuffer with
    | none => rfl
    | some nb =>
      cases hp : s.isPlaying with
      | false => simp
      | true =>
        cases hcs : s.currentSource with
        | none => simp
        | some cur =>
          cases hg : (s.nextSourceNode.isSome || s.schedulerTimeout.isSome) with
          | true => simp [hg]
          | false =>
            exfalso
            apply h
            simp only [Bool.or_eq_false_iff] at hg
            refine ⟨by simp [hnb], hp, by simp [hcs], ?_, ?_⟩
            · exact Option.not_isSome_iff_eq_none.mp (by simp [hg.1])
            · exact Option.not_isSome_iff_eq_none.mp (by simp [hg.2])
  · intro nb cur hnb hp hcs hns hst
    unfold scheduleNextTrack
    rw [hnb, hp, hcs, hns, hst]
    simp only [Option.isSome_none, Bool.or_false, Bool.or_self, if_true, if_false,
      Bool.false_eq_true, if_neg, reduceIte]
    refine ⟨{ node := { id := s.nextNodeId, bufferId := nb.id,
                        startWhen := now + (duration s - currentTime s now),
                        startOffset := 0, stopped := false, connected := true,
                        onendedSet := false },
              buffer := nb, path := s.nextTrackPath,
              endTime := now + (duration s - currentTime s now),
              fireAtMs := (duration s - currentTime s now) * 1000 },
          ?_, ?_, ?_, ?_, ?_, ?_, ?_, ?_⟩ <;> first
      | rfl
      | trivial

/-- Witness for C1 at `sReady`, `now = 10`: the guard holds and the
armed handle targets instant `10 + (180 - 10) = 180`. -/
theorem scheduleNextTrack_spec_witness :
    ∃ t : SwapTimeout,
      (scheduleNextTrack sReady 10).schedulerTimeout = some t ∧
      t.endTime = 10 + (duration sReady - currentTime sReady 10) ∧
      t.node.startWhen = 10 + (duration sReady - currentTime sReady 10) ∧
      t.node.bufferId = bufB.id ∧
      t.buffer = bufB ∧
      t.path = sReady.nextTrackPath ∧
      (scheduleNextTrack sReady 10).nextSourceNode = some t.node ∧
      (scheduleNextTrack sReady 10).currentSource = some { nodeA with onendedSet := false } :=
  (scheduleNextTrack_spec sReady 10).2 bufB nodeA rfl rfl rfl rfl rfl



/-- Sample armed next node for `bufB`, scheduled at instant `180`. -/
def nodeB : Node :=
  { id := 1, bufferId := 1, startWhen := 180, startOffset := 0,
    stopped := false, connected := true, onendedSet := false }

/-- Sample armed swap handle: swap to `bufB` / track "b" at instant
`180`. -/
def t0 : SwapTimeout :=
  { node := nodeB, buffer := bufB, path := some "b", endTime := 180,
    fireAtMs := 180000 }

/-- Sample state: `sReady` with the swap to track "b" armed. -/
def sArmed : EngineState :=
  { sReady with
    currentSource := some { nodeA with onendedSet := false }
    nextSourceNode := some nodeB
    schedulerTimeout := some t0
    nextNodeId := 2 }

/-- Unfolding `cancelScheduledTrack` into a single record update. -/
theorem cancelScheduledTrack_eq (s : EngineState) :
    cancelScheduledTrack s =
      { s with
        nextSourceNode := none
        schedulerTimeout := none
        stoppedNodes := s.stoppedNodes ++ (s.nextSourceNode.map stopNode).toList } := by
  unfold cancelScheduledTrack
  cases h : s.nextSourceNode with
  | none => simp [h]
  | some n => simp

/-- Unfolding `stop` into a single record update. -/
theorem stop_eq (s : EngineState) :
    stop s =
      { s with
        currentSource := none
        nextSourceNode := none
        schedulerTimeout := none
        isPlaying := false
        pauseOffset := 0
        startTime := 0
        stoppedNodes := s.stoppedNodes ++
          (s.currentSource.map (fun c => stopNode { c with onendedSet := false })).toList ++
          (s.nextSourceNode.map stopNode).toList } := by
  unfold stop
  cases hc : s.currentSource <;> cases hn : s.nextSourceNode <;>
    simp [cancelScheduledTrack_eq, hc, hn]

/-- C2: when the deferred callback of the armed swap fires, the captured
node, buffer and track path become the current slot, the next slot
empties, the start offset becomes the precomputed target instant, the
pause offset resets to `0`, a fresh natural-end handler is installed on
the now-current node, the handle clears, and (with an end callback
registered) the track-boundary notification fires exactly once;
`activeTrackPath` is then the path of the preloaded track. -/
theorem fireScheduledSwap_spec (s : EngineState) (t : SwapTimeout)
    (ht : s.schedulerTimeout = some t) (hcb : s.onEndedSet = true) :
    (fireScheduledSwap s).currentSource = some { t.node with onendedSet := true } ∧
    (fireScheduledSwap s).currentBuffer = some t.buffer ∧
    (fireScheduledSwap s).currentTrackPath = t.path ∧
    (fireScheduledSwap s).nextBuffer = none ∧
    (fireScheduledSwap s).nextTrackPath = none ∧
    (fireScheduledSwap s).nextSourceNode = none ∧
    (fireScheduledSwap s).schedulerTimeout = none ∧
    (fireScheduledSwap s).startTime = t.endTime ∧
    (fireScheduledSwap s).pauseOffset = 0 ∧
    (fireScheduledSwap s).notifications = s.notifications + 1 ∧
    activeTrackPath (fireScheduledSwap s) = t.path := by
  unfold fireScheduledSwap
  rw [ht]
  simp [activeTrackPath, hcb]

/-- Witness for C2 at the concrete armed state `sArmed`: firing the
timer makes track "b" current and bumps the notification count from `0`
to `1`. -/
theorem fireScheduledSwap_spec_witness :
    (fireScheduledSwap sArmed).currentSource = some { t0.node with onendedSet := true } ∧
    (fireScheduledSwap sArmed).currentBuffer = some t0.buffer ∧
    (fireScheduledSwap sArmed).currentTrackPath = t0.path ∧
    (fireScheduledSwap sArmed).nextBuffer = none ∧
    (fireScheduledSwap sArmed).nextTrackPath = none ∧
    (fireScheduledSwap sArmed).nextSourceNode = none ∧
    (fireScheduledSwap sArmed).schedulerTimeout = none ∧
    (fireScheduledSwap sArmed).startTime = t0.endTime ∧
    (fireScheduledSwap sArmed).pauseOffset = 0 ∧
    (fireScheduledSwap sArmed).notifications = sArmed.notifications + 1 ∧
    activeTrackPath (fireScheduledSwap sArmed) = t0.path :=
  fireScheduledSwap_spec sArmed t0 rfl rfl

/-- C8: `setVolume` stores the clamp of its input into `[0,1]` as the
engine volume, and a `setMute true` then `setMute false` round trip
restores the gain to exactly the stored pre-mute volume. -/
theorem volume_mute_spec (s : EngineState) (v : ℚ) :
    (setVolume s v).volume = max 0 (min 1 v) ∧
    (setMute (setMute s true) false).gainValue = s.volume ∧
    (setMute (setMute s true) false).volume = s.volume ∧
    (setMute (setMute s true) false).isMuted = false := by
  refine ⟨?_, ?_, ?_, ?_⟩
  · cases h : s.isMuted <;> simp [setVolume, h]
  · rfl
  · rfl
  · rfl

/-- C10: calling `loadTrack` for a path whose decoded buffer already
sits in the next slot promotes that buffer to the current slot
synchronously (the call resolves `some true` with no fetch/decode
phase), resets the position to `0`, and empties the next slot. -/
theorem loadTrack_preloaded_fast (s : EngineState) (path : String) (nb : Buffer)
    (hb : s.nextBuffer = some nb) (hp : s.nextTrackPath = some path) (now : ℚ) :
    (loadTrackStart s path).2 = some true ∧
    (loadTrackStart s path).1.currentBuffer = some nb ∧
    (loadTrackStart s path).1.currentTrackPath = some path ∧
    (loadTrackStart s path).1.nextBuffer = none ∧
    (loadTrackStart s path).1.nextTrackPath = none ∧
    (loadTrackStart s path).1.pauseOffset = 0 ∧
    (loadTrackStart s path).1.startTime = 0 ∧
    (loadTrackStart s path).1.isPlaying = false ∧
    currentTime (loadTrackStart s path).1 now = 0 := by
  unfold loadTrackStart
  rw [stop_eq]
  simp [hb, hp, currentTime]

/-- Witness for C10 at `sReady` with path "b": the preloaded buffer
`bufB` is promoted and the position reads `0`. -/
theorem loadTrack_preloaded_fast_witness :
    (loadTrackStart sReady "b").2 = some true ∧
    (loadTrackStart sReady "b").1.currentBuffer = some bufB ∧
    (loadTrackStart sReady "b").1.currentTrackPath = some "b" ∧
    (loadTrackStart sReady "b").1.nextBuffer = none ∧
    (loadTrackStart sReady "b").1.nextTrackPath = none ∧
    (loadTrackStart sReady "b").1.pauseOffset = 0 ∧
    (loadTrackStart sReady "b").1.startTime = 0 ∧
    (loadTrackStart sReady "b").1.isPlaying = false ∧
    currentTime (loadTrackStart sReady "b").1 7 = 0 :=
  loadTrack_preloaded_fast sReady "b" bufB rfl rfl 7

/-- Lemma: the synchronous phase of `loadTrack` always records the request in
`loadingTrackPath`. -/
theorem loadTrackStart_loadingTrackPath (s : EngineState) (path : String) :
    (loadTrackStart s path).1.loadingTrackPath = some path := by
  unfold loadTrackStart
  dsimp only
  split
  · split <;> rfl
  · rfl

/-- When the synchronous phase of `loadTrack` does not resolve via the
preload fast path, the state it hands to the fetch is `stop s` with the
request recorded and the stale next slot cleared. -/
theorem loadTrackStart_async_eq (s : EngineState) (path : String)
    (h : (loadTrackStart s path).2 = none) :
    (loadTrackStart s path).1 =
      { stop s with
        loadingTrackPath := some path
        nextBuffer := none
        nextTrackPath := none } := by
  by_cases hp : (stop s).nextTrackPath = some path
  · cases hnb : (stop s).nextBuffer with
    | some nb =>
      exfalso
      simp [loadTrackStart, hnb, hp] at h
    | none => simp [loadTrackStart, hnb, hp]
  · cases hnb : (stop s).nextBuffer with
    | some nb => simp [loadTrackStart, hnb, hp]
    | none => simp [loadTrackStart, hnb]

/-- C5: `loadTrack` is last-request-wins: once `loadTrack B` has been
issued, the still-in-flight `loadTrack A` (`A ≠ B`) finds
`loadingTrackPath ≠ A` when its decode resolves, so it resolves `false`
and commits nothing — only the buffer of `B` may ever reach the current slot;
this holds whether the decode of `A` settles before or after that of `B`. -/
theorem loadTrack_last_request_wins (s : EngineState) (A B : String) (bufOfA bufOfB : Buffer)
    (hne : A ≠ B) (h1 : (loadTrackStart s A).2 = none) :
    (∀ s2, s2.loadingTrackPath ≠ some A →
      loadTrackResume s2 A (.ok bufOfA) = (s2, .cancelled)) ∧
    (loadTrackResume (loadTrackStart (loadTrackStart s A).1 B).1 A (.ok bufOfA) =
      ((loadTrackStart (loadTrackStart s A).1 B).1, .cancelled)) ∧
    (loadTrackResume
        (loadTrackResume (loadTrackStart (loadTrackStart s A).1 B).1 B (.ok bufOfB)).1
        A (.ok bufOfA) =
      ((loadTrackResume (loadTrackStart (loadTrackStart s A).1 B).1 B (.ok bufOfB)).1,
        .cancelled)) := by
  have key : ∀ s2 : EngineState, s2.loadingTrackPath ≠ some A →
      loadTrackResume s2 A (.ok bufOfA) = (s2, .cancelled) := by
    intro s2 h2
    unfold loadTrackResume
    simp [h2]
  have hB : (loadTrackStart (loadTrackStart s A).1 B).1.loadingTrackPath = some B :=
    loadTrackStart_loadingTrackPath _ B
  have hBA : (loadTrackStart (loadTrackStart s A).1 B).1.loadingTrackPath ≠ some A := by
    rw [hB]
    simp [Ne.symm hne]
  have hres :
      (loadTrackResume (loadTrackStart (loadTrackStart s A).1 B).1 B
          (.ok bufOfB)).1.loadingTrackPath ≠ some A := by
    unfold loadTrackResume
    dsimp only
    split
    all_goals first
      | simp
      | exact hBA
  exact ⟨key, key _ hBA, key _ hres⟩

/-- Witness for C5 from the fresh engine state: load "a", then load "b"
before "a" resolves; the resume of "a" commits nothing and resolves
`cancelled`, in either settlement order. -/
theorem loadTrack_last_request_wins_witness :
    (∀ s2, s2.loadingTrackPath ≠ some "a" →
      loadTrackResume s2 "a" (.ok bufA) = (s2, .cancelled)) ∧
    (loadTrackResume (loadTrackStart (loadTrackStart engineInit "a").1 "b").1 "a" (.ok bufA) =
      ((loadTrackStart (loadTrackStart engineInit "a").1 "b").1, .cancelled)) ∧
    (loadTrackResume
        (loadTrackResume (loadTrackStart (loadTrackStart engineInit "a").1 "b").1 "b" (.ok bufB)).1
        "a" (.ok bufA) =
      ((loadTrackResume (loadTrackStart (loadTrackStart engineInit "a").1 "b").1 "b" (.ok bufB)).1,
        .cancelled)) :=
  loadTrack_last_request_wins engineInit "a" "b" bufA bufB (by decide) (by decide)

/-- C6 counterexample: `loadTrack` stops playback and clears the next
slot before it ever fetches, so after a decode failure the engine is not
in its prior state: at `sReady` (playing, with track "b" preloaded) a
failing `loadTrack "c"` leaves the engine stopped and the next slot
empty. -/
theorem loadTrack_error_counterexample :
    sReady.isPlaying = true ∧ sReady.nextBuffer = some bufB ∧
    sReady.nextTrackPath = some "b" ∧
    (loadTrackResume (loadTrackStart sReady "c").1 "c" .err).1.isPlaying = false ∧
    (loadTrackResume (loadTrackStart sReady "c").1 "c" .err).1.nextBuffer = none ∧
    (loadTrackResume (loadTrackStart sReady "c").1 "c" .err).1.nextTrackPath = none := by
  decide

/-- C6 amended: when the fetch/decode of a non-preloaded `loadTrack`
fails, the error is rethrown to the caller, no buffer is installed and
the binding of the current slot (buffer and path) is untouched — but the
engine does not keep its prior transport state: the call had already
stopped playback (not playing, position `0`, swap handle cancelled) and
cleared the next slot before fetching, and the failure leaves it so. -/
theorem loadTrack_error_amended (s : EngineState) (path : String)
    (h1 : (loadTrackStart s path).2 = none) :
    (loadTrackResume (loadTrackStart s path).1 path .err).2 = .failure ∧
    (loadTrackResume (loadTrackStart s path).1 path .err).1.currentBuffer = s.currentBuffer ∧
    (loadTrackResume (loadTrackStart s path).1 path .err).1.currentTrackPath = s.currentTrackPath ∧
    (loadTrackResume (loadTrackStart s path).1 path .err).1.isPlaying = false ∧
    (loadTrackResume (loadTrackStart s path).1 path .err).1.pauseOffset = 0 ∧
    (loadTrackResume (loadTrackStart s path).1 path .err).1.startTime = 0 ∧
    (loadTrackResume (loadTrackStart s path).1 path .err).1.nextBuffer = none ∧
    (loadTrackResume (loadTrackStart s path).1 path .err).1.nextTrackPath = none ∧
    (loadTrackResume (loadTrackStart s path).1 path .err).1.schedulerTimeout = none ∧
    (loadTrackResume (loadTrackStart s path).1 path .err).1.loadingTrackPath = none := by
  rw [loadTrackStart_async_eq s path h1, stop_eq]
  unfold loadTrackResume
  simp

/-- Witness for the amended statement of C6 at `sReady` with the
non-preloaded path "c". -/
theorem loadTrack_error_amended_witness :
    (loadTrackResume (loadTrackStart sReady "c").1 "c" .err).2 = .failure ∧
    (loadTrackResume (loadTrackStart sReady "c").1 "c" .err).1.currentBuffer = sReady.currentBuffer ∧
    (loadTrackResume (loadTrackStart sReady "c").1 "c" .err).1.currentTrackPath = sReady.currentTrackPath ∧
    (loadTrackResume (loadTrackStart sReady "c").1 "c" .err).1.isPlaying = false ∧
    (loadTrackResume (loadTrackStart sReady "c").1 "c" .err).1.pauseOffset = 0 ∧
    (loadTrackResume (loadTrackStart sReady "c").1 "c" .err).1.startTime = 0 ∧
    (loadTrackResume (loadTrackStart sReady "c").1 "c" .err).1.nextBuffer = none ∧
    (loadTrackResume (loadTrackStart sReady "c").1 "c" .err).1.nextTrackPath = none ∧
    (loadTrackResume (loadTrackStart sReady "c").1 "c" .err).1.schedulerTimeout = none ∧
    (loadTrackResume (loadTrackStart sReady "c").1 "c" .err).1.loadingTrackPath = none :=
  loadTrack_error_amended sReady "c" (by decide)

/-- Propositional reading of `goodInv`. -/
theorem goodInv_spec (s : EngineState) (h : goodInv s = true) :
    ((s.schedulerTimeout.isSome = true ∨ s.nextSourceNode.isSome = true) →
      s.isPlaying = true ∧ s.nextBuffer.isSome = true) ∧
    (s.isPlaying = true → s.currentSource.isSome = true ∧ s.currentBuffer.isSome = true) := by
  unfold goodInv at h
  rw [Bool.and_eq_true, Bool.or_eq_true, Bool.or_eq_true] at h
  constructor
  · intro hor
    have hbo : (s.schedulerTimeout.isSome || s.nextSourceNode.isSome) = true := by
      rcases hor with h1 | h1 <;> simp [h1]
    rcases h.1 with h1 | h1
    · rw [hbo] at h1
      simp at h1
    · exact ⟨(Bool.and_eq_true _ _).mp h1 |>.1, (Bool.and_eq_true _ _).mp h1 |>.2⟩
  · intro hp
    rcases h.2 with h2 | h2
    · rw [hp] at h2
      simp at h2
    · exact ⟨(Bool.and_eq_true _ _).mp h2 |>.1, (Bool.and_eq_true _ _).mp h2 |>.2⟩

/-- If the invariant holds and the engine is not playing, neither swap
component exists. -/
theorem goodInv_handles_none (s : EngineState) (h : goodInv s = true)
    (hp : s.isPlaying = false) :
    s.schedulerTimeout = none ∧ s.nextSourceNode = none := by
  have hs := goodInv_spec s h
  constructor
  · cases hst : s.schedulerTimeout with
    | none => rfl
    | some t =>
      have := (hs.1 (Or.inl (by simp [hst]))).1
      rw [hp] at this
      cases this
  · cases hns : s.nextSourceNode with
    | none => rfl
    | some n =>
      have := (hs.1 (Or.inr (by simp [hns]))).1
      rw [hp] at this
      cases this

/-- Lemma: `pause` is a no-op when not playing. -/
theorem pause_not_playing (s : EngineState) (now : ℚ) (hp : s.isPlaying = false) :
    pause s now = s := by
  unfold pause
  rw [hp]
  simp

/-- Unfolding `pause` on a playing state with a live node. -/
theorem pause_eq_of_playing (s : EngineState) (now : ℚ) (cur : Node)
    (hp : s.isPlaying = true) (hc : s.currentSource = some cur) :
    pause s now =
      { s with
        isPlaying := false
        pauseOffset := now - s.startTime
        currentSource := none
        nextSourceNode := none
        schedulerTimeout := none
        stoppedNodes := (s.stoppedNodes ++ [stopNode { cur with onendedSet := false }]) ++
          (s.nextSourceNode.map stopNode).toList } := by
  unfold pause
  rw [hp, hc]
  simp [cancelScheduledTrack_eq]

/-- Unfolding `scheduleNextTrack` when the arming guard holds. -/
theorem scheduleNextTrack_arm_eq (s : EngineState) (now : ℚ) (nb : Buffer) (cur : Node)
    (hnb : s.nextBuffer = some nb) (hp : s.isPlaying = true)
    (hc : s.currentSource = some cur) (hns : s.nextSourceNode = none)
    (hst : s.schedulerTimeout = none) :
    scheduleNextTrack s now =
      { s with
        nextSourceNode := some
          { id := s.nextNodeId, bufferId := nb.id,
            startWhen := now + (duration s - currentTime s now), startOffset := 0,
            stopped := false, connected := true, onendedSet := false }
        nextNodeId := s.nextNodeId + 1
        currentSource := some { cur with onendedSet := false }
        schedulerTimeout := some
          { node :=
              { id := s.nextNodeId, bufferId := nb.id,
                startWhen := now + (duration s - currentTime s now), startOffset := 0,
                stopped := false, connected := true, onendedSet := false }
            buffer := nb
            path := s.nextTrackPath
            endTime := now + (duration s - currentTime s now)
            fireAtMs := (duration s - currentTime s now) * 1000 } } := by
  unfold scheduleNextTrack
  rw [hnb, hp, hc, hns, hst]
  simp

/-- Lemma: `scheduleNextTrack` never stops a node. -/
theorem scheduleNextTrack_stoppedNodes (s : EngineState) (now : ℚ) :
    (scheduleNextTrack s now).stoppedNodes = s.stoppedNodes := by
  unfold scheduleNextTrack
  repeat' split
  all_goals rfl

/-- Lemma: `scheduleNextTrack` does not change the transport or slot-binding
fields. -/
theorem scheduleNextTrack_frame (s : EngineState) (now : ℚ) :
    (scheduleNextTrack s now).isPlaying = s.isPlaying ∧
    (scheduleNextTrack s now).currentBuffer = s.currentBuffer ∧
    (scheduleNextTrack s now).nextBuffer = s.nextBuffer ∧
    (scheduleNextTrack s now).startTime = s.startTime ∧
    (scheduleNextTrack s now).pauseOffset = s.pauseOffset := by
  unfold scheduleNextTrack
  repeat' split
  all_goals exact ⟨rfl, rfl, rfl, rfl, rfl⟩

/-- Unfolding `play` on a paused state with a bound current buffer. -/
theorem play_eq_of_ready (s : EngineState) (now : ℚ) (buf : Buffer)
    (hp : s.isPlaying = false) (hb : s.currentBuffer = some buf) :
    play s now =
      (if s.nextBuffer.isSome then
        scheduleNextTrack
          { s with
            currentSource := some
              { id := s.nextNodeId, bufferId := buf.id, startWhen := now,
                startOffset := s.pauseOffset, stopped := false, connected := true,
                onendedSet := true }
            nextNodeId := s.nextNodeId + 1
            startTime := now - s.pauseOffset
            isPlaying := true } now
      else
        { s with
          currentSource := some
            { id := s.nextNodeId, bufferId := buf.id, startWhen := now,
              startOffset := s.pauseOffset, stopped := false, connected := true,
              onendedSet := true }
          nextNodeId := s.nextNodeId + 1
          startTime := now - s.pauseOffset
          isPlaying := true }) := by
  unfold play
  rw [hp, hb]
  simp

/-- Lemma: `fireScheduledSwap` does nothing once the handle is cleared. -/
theorem fireScheduledSwap_none (s : EngineState) (h : s.schedulerTimeout = none) :
    fireScheduledSwap s = s := by
  unfold fireScheduledSwap
  rw [h]

/-- Unfolding `seek` on a playing state: pause (which stops the node and
cancels any schedule), clamp the target, and resume. -/
theorem seek_eq_of_playing (s : EngineState) (t now : ℚ) (cur : Node) (buf : Buffer)
    (hp : s.isPlaying = true) (hc : s.currentSource = some cur) (hb : s.currentBuffer = some buf) :
    seek s t now =
      play
        { s with
          isPlaying := false
          pauseOffset := max 0 (min t (duration s))
          currentSource := none
          nextSourceNode := none
          schedulerTimeout := none
          stoppedNodes := (s.stoppedNodes ++ [stopNode { cur with onendedSet := false }]) ++
            (s.nextSourceNode.map stopNode).toList } now := by
  unfold seek
  rw [hb]
  dsimp only
  rw [hp]
  simp only [reduceIte]
  rw [pause_eq_of_playing s now cur hp hc]
  simp [duration, hb]

/-- Unfolding `seek` on a non-playing state: only the pause offset is
reassigned. -/
theorem seek_eq_of_paused (s : EngineState) (t now : ℚ) (buf : Buffer)
    (hp : s.isPlaying = false) (hb : s.currentBuffer = some buf) :
    seek s t now = { s with pauseOffset := max 0 (min t (duration s)) } := by
  unfold seek
  rw [hb]
  dsimp only
  rw [hp]
  simp only [Bool.false_eq_true, reduceIte]
  simp [hb, hp]

/-- C3 counterexample: the claim says no scheduled swap handle exists
after `seek` returns, but `seek` on a playing engine with a bound next
buffer re-arms one on its way out (pause cancels, play re-schedules): at
`sReady` the call `seek 5` ends with an armed timer and an armed next
node. -/
theorem seek_rearms_counterexample :
    sReady.schedulerTimeout = none ∧ sReady.nextSourceNode = none ∧
    (seek sReady 5 10).schedulerTimeout.isSome = true ∧
    (seek sReady 5 10).nextSourceNode.isSome = true := by
  decide

/-- C3 amended: after `pause` or `stop` no swap handle exists, the
armed next node (if any) has been stopped and disconnected, and no
previously scheduled swap or notification can fire (the swap callback is
the identity on the resulting state); `seek` likewise synchronously
cancels the previously armed swap and stops its node, but when the
engine is playing with a next buffer bound, `seek` re-arms a fresh
schedule before returning, so a handle may exist after it — only a new
one, never the old. -/
theorem transport_cancels_swap (s : EngineState) (now t : ℚ) (h : goodInv s = true) :
    ((pause s now).schedulerTimeout = none ∧ (pause s now).nextSourceNode = none ∧
      fireScheduledSwap (pause s now) = pause s now) ∧
    ((stop s).schedulerTimeout = none ∧ (stop s).nextSourceNode = none ∧
      fireScheduledSwap (stop s) = stop s) ∧
    (∀ n, s.nextSourceNode = some n →
      stopNode n ∈ (pause s now).stoppedNodes ∧
      stopNode n ∈ (stop s).stoppedNodes ∧
      stopNode n ∈ (seek s t now).stoppedNodes) ∧
    ((seek s t now).schedulerTimeout.isSome = true →
      s.isPlaying = true ∧ s.nextBuffer.isSome = true) := by
  have hs := goodInv_spec s h
  have hpause : (pause s now).schedulerTimeout = none ∧ (pause s now).nextSourceNode = none := by
    cases hp : s.isPlaying with
    | false =>
      rw [pause_not_playing s now hp]
      exact goodInv_handles_none s h hp
    | true =>
      obtain ⟨cur, hc⟩ := Option.isSome_iff_exists.mp (hs.2 hp).1
      rw [pause_eq_of_playing s now cur hp hc]
      exact ⟨rfl, rfl⟩
  refine ⟨⟨hpause.1, hpause.2, fireScheduledSwap_none _ hpause.1⟩,
    ⟨by rw [stop_eq], by rw [stop_eq], fireScheduledSwap_none _ (by rw [stop_eq])⟩, ?_, ?_⟩
  · intro n hn
    have hp : s.isPlaying = true := (hs.1 (Or.inr (by simp [hn]))).1
    obtain ⟨cur, hc⟩ := Option.isSome_iff_exists.mp (hs.2 hp).1
    obtain ⟨buf, hb⟩ := Option.isSome_iff_exists.mp (hs.2 hp).2
    have hmem : stopNode n ∈ (pause s now).stoppedNodes := by
      rw [pause_eq_of_playing s now cur hp hc]
      simp [hn]
    refine ⟨hmem, by rw [stop_eq]; simp [hn], ?_⟩
    rw [seek_eq_of_playing s t now cur buf hp hc hb]
    rw [play_eq_of_ready _ now buf rfl (by exact hb)]
    split
    · rw [scheduleNextTrack_stoppedNodes]
      simp [hn]
    · simp [hn]
  · intro harm
    cases hb : s.currentBuffer with
    | none =>
      unfold seek at harm
      rw [hb] at harm
      exact hs.1 (Or.inl harm)
    | some buf =>
      cases hp : s.isPlaying with
      | false =>
        rw [seek_eq_of_paused s t now buf hp hb] at harm
        have := (hs.1 (Or.inl harm)).1
        rw [hp] at this
        cases this
      | true =>
        refine ⟨rfl, ?_⟩
        cases hnb : s.nextBuffer with
        | some nb => rfl
        | none =>
          exfalso
          obtain ⟨cur, hc⟩ := Option.isSome_iff_exists.mp (hs.2 hp).1
          rw [seek_eq_of_playing s t now cur buf hp hc hb] at harm
          rw [play_eq_of_ready _ now buf rfl (by exact hb)] at harm
          rw [if_neg (by simp [hnb])] at harm
          simp at harm

/-- Witness for the amended statement of C3 at the armed state `sArmed` with
`now = 10`, `t = 5`: the invariant holds there, and the armed node
`nodeB` is found stopped after `pause`, `stop` and `seek`. -/
theorem transport_cancels_swap_witness :
    goodInv sArmed = true ∧
    ((pause sArmed 10).schedulerTimeout = none ∧ (pause sArmed 10).nextSourceNode = none ∧
      fireScheduledSwap (pause sArmed 10) = pause sArmed 10) ∧
    (stopNode nodeB ∈ (pause sArmed 10).stoppedNodes ∧
      stopNode nodeB ∈ (stop sArmed).stoppedNodes ∧
      stopNode nodeB ∈ (seek sArmed 5 10).stoppedNodes) := by
  have h : goodInv sArmed = true := by decide
  have hmain := transport_cancels_swap sArmed 10 5 h
  exact ⟨h, hmain.1, hmain.2.2.1 nodeB rfl⟩

/-- Lemma: `cancelScheduledTrack` never leaks a timer. -/
theorem cancel_leak (s : EngineState) :
    (cancelScheduledTrack s).leakedTimers = s.leakedTimers := by
  rw [cancelScheduledTrack_eq]

/-- Lemma: `stop` never leaks a timer. -/
theorem stop_leak (s : EngineState) : (stop s).leakedTimers = s.leakedTimers := by
  rw [stop_eq]

/-- Lemma: `pause` never leaks a timer. -/
theorem pause_leak (s : EngineState) (now : ℚ) :
    (pause s now).leakedTimers = s.leakedTimers := by
  unfold pause
  repeat' split
  all_goals first
    | rfl
    | exact cancel_leak _

/-- Lemma: `scheduleNextTrack` never leaks a timer: the arm branch runs only
when no timer is live, so the appended `toList` is empty. -/
theorem schedule_leak (s : EngineState) (now : ℚ) :
    (scheduleNextTrack s now).leakedTimers = s.leakedTimers := by
  unfold scheduleNextTrack
  repeat' split
  all_goals try rfl
  rename_i hguard
  have hst : s.schedulerTimeout = none := by
    cases hst : s.schedulerTimeout with
    | none => rfl
    | some u =>
      exfalso
      apply hguard
      simp [hst]
  simp [hst]

/-- Lemma: `play` never leaks a timer. -/
theorem play_leak (s : EngineState) (now : ℚ) :
    (play s now).leakedTimers = s.leakedTimers := by
  unfold play
  split
  · rfl
  · split
    · rfl
    · dsimp only
      split
      · rw [schedule_leak]
      · rfl

/-- Lemma: `seek` never leaks a timer. -/
theorem seek_leak (s : EngineState) (t now : ℚ) :
    (seek s t now).leakedTimers = s.leakedTimers := by
  unfold seek
  cases hb : s.currentBuffer with
  | none => rfl
  | some buf =>
    dsimp only
    cases hp : s.isPlaying with
    | false => simp
    | true =>
      simp only [reduceIte]
      rw [play_leak]
      exact pause_leak s now

/-- Lemma: `reset` never leaks a timer. -/
theorem reset_leak (s : EngineState) : (reset s).leakedTimers = s.leakedTimers := by
  unfold reset
  rw [stop_eq]

/-- Lemma: the synchronous phase of `loadTrack` never leaks a timer. -/
theorem loadStart_leak (s : EngineState) (path : String) :
    (loadTrackStart s path).1.leakedTimers = s.leakedTimers := by
  unfold loadTrackStart
  dsimp only
  split
  · split
    · exact stop_leak s
    · exact stop_leak s
  · exact stop_leak s

/-- Lemma: the resume phase of `loadTrack` never leaks a timer. -/
theorem loadResume_leak (s : EngineState) (path : String) (res : LoadResult) :
    (loadTrackResume s path res).1.leakedTimers = s.leakedTimers := by
  unfold loadTrackResume
  repeat' split
  all_goals rfl

/-- Lemma: the synchronous phase of `preloadNextTrack` never leaks a timer. -/
theorem preStart_leak (s : EngineState) (path : String) :
    (preloadStart s path).1.leakedTimers = s.leakedTimers := by
  unfold preloadStart
  split
  all_goals rfl

/-- Lemma: the resume phase of `preloadNextTrack` never leaks a timer. -/
theorem preResume_leak (s : EngineState) (path : String) (res : LoadResult) (now : ℚ) :
    (preloadResume s path res now).leakedTimers = s.leakedTimers := by
  unfold preloadResume
  split
  · rfl
  · split
    · dsimp only
      split
      · rw [schedule_leak, cancel_leak]
      · rfl
    · rfl

/-- Lemma: `playNext` never leaks a timer. -/
theorem playNext_leak (s : EngineState) (path : String) (now : ℚ) :
    (playNext s path now).1.leakedTimers = s.leakedTimers := by
  unfold playNext
  split
  · split
    · split
      · rfl
      · dsimp only
        split
        · rw [play_leak]
          exact stop_leak s
        · exact stop_leak s
    · rfl
  · rfl

/-- The timer-swap callback never leaks a timer. -/
theorem fireSwap_leak (s : EngineState) :
    (fireScheduledSwap s).leakedTimers = s.leakedTimers := by
  unfold fireScheduledSwap
  split
  all_goals rfl

/-- The natural-end callback never leaks a timer. -/
theorem naturalEnd_leak (s : EngineState) (now : ℚ) :
    (naturalEnd s now).leakedTimers = s.leakedTimers := by
  unfold naturalEnd
  repeat' split
  all_goals first
    | rfl
    | exact playNext_leak s _ now

/-- No engine operation ever leaks a timer. -/
theorem step_leak (s : EngineState) (op : Op) :
    (step s op).leakedTimers = s.leakedTimers := by
  cases op with
  | opPlay now => exact play_leak s now
  | opPause now => exact pause_leak s now
  | opStop => exact stop_leak s
  | opReset => exact reset_leak s
  | opSeek t now => exact seek_leak s t now
  | opSetVolume v =>
    show (setVolume s v).leakedTimers = s.leakedTimers
    unfold setVolume
    dsimp only
    split
    · rfl
    · rfl
  | opSetMute m => rfl
  | opSchedule now => exact schedule_leak s now
  | opLoadStart path => exact loadStart_leak s path
  | opLoadResume path res => exact loadResume_leak s path res
  | opPreloadStart path => exact preStart_leak s path
  | opPreloadResume path res now => exact preResume_leak s path res now
  | opPlayNext path now => exact playNext_leak s path now
  | opFireSwap => exact fireSwap_leak s
  | opNaturalEnd now => exact naturalEnd_leak s now
  | opSetOnEnded => rfl

/-- Every reachable state has an empty leak log: at most one pending
swap timer ever exists. -/
theorem reachable_no_leak (s : EngineState) (h : Reachable s) :
    s.leakedTimers = [] := by
  induction h with
  | init => rfl
  | step op hr ih => rw [step_leak, ih]

/-- Builds `goodInv` from its two component propositions. -/
theorem goodInv_of (s : EngineState)
    (h1 : (s.schedulerTimeout = none ∧ s.nextSourceNode = none) ∨
          (s.isPlaying = true ∧ s.nextBuffer.isSome = true))
    (h2 : s.isPlaying = false ∨ (s.currentSource.isSome = true ∧ s.currentBuffer.isSome = true)) :
    goodInv s = true := by
  unfold goodInv
  rw [Bool.and_eq_true, Bool.or_eq_true, Bool.or_eq_true]
  constructor
  · rcases h1 with ⟨ha, hb⟩ | ⟨ha, hb⟩
    · exact Or.inl (by simp [ha, hb])
    · exact Or.inr (by simp [ha, hb])
  · rcases h2 with hc | ⟨hc, hd⟩
    · exact Or.inl (by simp [hc])
    · exact Or.inr (by simp [hc, hd])

/-- Lemma: `goodInv` transfers along a state change that keeps the swap and
transport observables, possibly strengthening a slot to definitely
bound. -/
theorem goodInv_mono (s1 s2 : EngineState) (h : goodInv s1 = true)
    (e1 : s2.schedulerTimeout.isSome = s1.schedulerTimeout.isSome)
    (e2 : s2.nextSourceNode.isSome = s1.nextSourceNode.isSome)
    (e3 : s2.isPlaying = s1.isPlaying)
    (e4 : s2.nextBuffer.isSome = s1.nextBuffer.isSome ∨ s2.nextBuffer.isSome = true)
    (e5 : s2.currentSource.isSome = s1.currentSource.isSome ∨ s2.currentSource.isSome = true)
    (e6 : s2.currentBuffer.isSome = s1.currentBuffer.isSome ∨ s2.currentBuffer.isSome = true) :
    goodInv s2 = true := by
  have hs := goodInv_spec s1 h
  apply goodInv_of
  · by_cases hon : s2.schedulerTimeout.isSome = true ∨ s2.nextSourceNode.isSome = true
    · right
      have h1 := hs.1 (by
        rcases hon with ho | ho
        · exact Or.inl (by rw [← e1]; exact ho)
        · exact Or.inr (by rw [← e2]; exact ho))
      refine ⟨by rw [e3]; exact h1.1, ?_⟩
      rcases e4 with e4 | e4
      · rw [e4]; exact h1.2
      · exact e4
    · left
      push_neg at hon
      constructor
      · cases ho : s2.schedulerTimeout with
        | none => rfl
        | some u => exact absurd (by simp [ho]) hon.1
      · cases ho : s2.nextSourceNode with
        | none => rfl
        | some u => exact absurd (by simp [ho]) hon.2
  · cases hp : s2.isPlaying with
    | false => exact Or.inl rfl
    | true =>
      right
      have h2 := hs.2 (by rw [← e3]; exact hp)
      constructor
      · rcases e5 with e5 | e5
        · rw [e5]; exact h2.1
        · exact e5
      · rcases e6 with e6 | e6
        · rw [e6]; exact h2.2
        · exact e6

/-- Lemma: `play` is a no-op while already playing. -/
theorem play_playing (s : EngineState) (now : ℚ) (hp : s.isPlaying = true) :
    play s now = s := by
  unfold play
  rw [hp]
  simp

/-- Lemma: `play` is a no-op without a bound current buffer. -/
theorem play_nobuf (s : EngineState) (now : ℚ) (hp : s.isPlaying = false)
    (hb : s.currentBuffer = none) : play s now = s := by
  unfold play
  rw [hp, hb]
  simp

/-- Lemma: `pause` is a no-op when no live node exists. -/
theorem pause_no_source (s : EngineState) (now : ℚ) (hp : s.isPlaying = true)
    (hc : s.currentSource = none) : pause s now = s := by
  unfold pause
  rw [hp, hc]
  simp

/-- Lemma: `scheduleNextTrack` is a no-op whenever any arm condition fails. -/
theorem scheduleNextTrack_noop (s : EngineState) (now : ℚ)
    (h : s.nextBuffer = none ∨ s.isPlaying = false ∨ s.currentSource = none ∨
         s.nextSourceNode.isSome = true ∨ s.schedulerTimeout.isSome = true) :
    scheduleNextTrack s now = s := by
  unfold scheduleNextTrack
  cases hnb : s.nextBuffer with
  | none => rfl
  | some nb =>
    cases hp : s.isPlaying with
    | false => simp
    | true =>
      cases hc : s.currentSource with
      | none => simp
      | some cur =>
        cases hg : (s.nextSourceNode.isSome || s.schedulerTimeout.isSome) with
        | true => simp [hg]
        | false =>
          exfalso
          simp only [Bool.or_eq_false_iff] at hg
          rcases h with h | h | h | h | h
          · rw [hnb] at h; cases h
          · rw [hp] at h; cases h
          · rw [hc] at h; cases h
          · rw [hg.1] at h; cases h
          · rw [hg.2] at h; cases h

/-- Lemma: `cancelScheduledTrack` preserves the invariant. -/
theorem goodInv_cancel (s : EngineState) (h : goodInv s = true) :
    goodInv (cancelScheduledTrack s) = true := by
  have hs := goodInv_spec s h
  rw [cancelScheduledTrack_eq]
  apply goodInv_of
  · exact Or.inl ⟨rfl, rfl⟩
  · cases hp : s.isPlaying with
    | false => exact Or.inl rfl
    | true => exact Or.inr (hs.2 hp)

/-- Lemma: `stop` establishes the invariant unconditionally. -/
theorem goodInv_stop (s : EngineState) : goodInv (stop s) = true := by
  rw [stop_eq]
  apply goodInv_of
  · exact Or.inl ⟨rfl, rfl⟩
  · exact Or.inl rfl

/-- Lemma: `reset` establishes the invariant unconditionally. -/
theorem goodInv_reset (s : EngineState) : goodInv (reset s) = true := by
  unfold reset
  rw [stop_eq]
  apply goodInv_of
  · exact Or.inl ⟨rfl, rfl⟩
  · exact Or.inl rfl

/-- Lemma: `pause` preserves the invariant. -/
theorem goodInv_pause (s : EngineState) (now : ℚ) (h : goodInv s = true) :
    goodInv (pause s now) = true := by
  cases hp : s.isPlaying with
  | false => rw [pause_not_playing s now hp]; exact h
  | true =>
    cases hc : s.currentSource with
    | none => rw [pause_no_source s now hp hc]; exact h
    | some cur =>
      rw [pause_eq_of_playing s now cur hp hc]
      apply goodInv_of
      · exact Or.inl ⟨rfl, rfl⟩
      · exact Or.inl rfl

/-- Lemma: `scheduleNextTrack` preserves the invariant. -/
theorem goodInv_schedule (s : EngineState) (now : ℚ) (h : goodInv s = true) :
    goodInv (scheduleNextTrack s now) = true := by
  have hs := goodInv_spec s h
  cases hnb : s.nextBuffer with
  | none => rw [scheduleNextTrack_noop s now (Or.inl hnb)]; exact h
  | some nb =>
    cases hp : s.isPlaying with
    | false => rw [scheduleNextTrack_noop s now (Or.inr (Or.inl hp))]; exact h
    | true =>
      cases hc : s.currentSource with
      | none => rw [scheduleNextTrack_noop s now (Or.inr (Or.inr (Or.inl hc)))]; exact h
      | some cur =>
        cases hns : s.nextSourceNode with
        | some n =>
          rw [scheduleNextTrack_noop s now (Or.inr (Or.inr (Or.inr (Or.inl (by simp [hns])))))]
          exact h
        | none =>
          cases hst : s.schedulerTimeout with
          | some u =>
            rw [scheduleNextTrack_noop s now (Or.inr (Or.inr (Or.inr (Or.inr (by simp [hst])))))]
            exact h
          | none =>
            rw [scheduleNextTrack_arm_eq s now nb cur hnb hp hc hns hst]
            apply goodInv_of
            · exact Or.inr ⟨hp, by simp [hnb]⟩
            · exact Or.inr ⟨by simp, (hs.2 hp).2⟩

/-- Lemma: `play` preserves the invariant. -/
theorem goodInv_play (s : EngineState) (now : ℚ) (h : goodInv s = true) :
    goodInv (play s now) = true := by
  cases hp : s.isPlaying with
  | true => rw [play_playing s now hp]; exact h
  | false =>
    cases hb : s.currentBuffer with
    | none => rw [play_nobuf s now hp hb]; exact h
    | some buf =>
      have hhandles := goodInv_handles_none s h hp
      rw [play_eq_of_ready s now buf hp hb]
      split
      · apply goodInv_schedule
        apply goodInv_of
        · exact Or.inl ⟨hhandles.1, hhandles.2⟩
        · exact Or.inr ⟨by simp, by simp [hb]⟩
      · apply goodInv_of
        · exact Or.inl ⟨hhandles.1, hhandles.2⟩
        · exact Or.inr ⟨by simp, by simp [hb]⟩

/-- Lemma: `seek` preserves the invariant. -/
theorem goodInv_seek (s : EngineState) (t now : ℚ) (h : goodInv s = true) :
    goodInv (seek s t now) = true := by
  have hs := goodInv_spec s h
  cases hb : s.currentBuffer with
  | none =>
    have hnoop : seek s t now = s := by
      unfold seek
      rw [hb]
    rw [hnoop]
    exact h
  | some buf =>
    cases hp : s.isPlaying with
    | false =>
      rw [seek_eq_of_paused s t now buf hp hb]
      exact goodInv_mono s _ h rfl rfl rfl (Or.inl rfl) (Or.inl rfl) (Or.inl rfl)
    | true =>
      obtain ⟨cur, hc⟩ := Option.isSome_iff_exists.mp (hs.2 hp).1
      rw [seek_eq_of_playing s t now cur buf hp hc hb]
      apply goodInv_play
      apply goodInv_of
      · exact Or.inl ⟨rfl, rfl⟩
      · exact Or.inl rfl

/-- Lemma: the synchronous phase of `loadTrack` establishes the invariant. -/
theorem goodInv_loadStart (s : EngineState) (path : String) :
    goodInv (loadTrackStart s path).1 = true := by
  unfold loadTrackStart
  rw [stop_eq]
  dsimp only
  split
  · split
    · apply goodInv_of
      · exact Or.inl ⟨rfl, rfl⟩
      · exact Or.inl rfl
    · apply goodInv_of
      · exact Or.inl ⟨rfl, rfl⟩
      · exact Or.inl rfl
  · apply goodInv_of
    · exact Or.inl ⟨rfl, rfl⟩
    · exact Or.inl rfl

/-- Lemma: the resume phase of `loadTrack` preserves the invariant. -/
theorem goodInv_loadResume (s : EngineState) (path : String) (res : LoadResult)
    (h : goodInv s = true) : goodInv (loadTrackResume s path res).1 = true := by
  unfold loadTrackResume
  split
  · split
    · exact goodInv_mono s _ h rfl rfl rfl (Or.inl rfl) (Or.inl rfl) (Or.inr (by simp))
    · exact h
  · split
    · exact goodInv_mono s _ h rfl rfl rfl (Or.inl rfl) (Or.inl rfl) (Or.inl rfl)
    · exact h

/-- Lemma: the synchronous phase of `preloadNextTrack` preserves the invariant. -/
theorem goodInv_preStart (s : EngineState) (path : String) (h : goodInv s = true) :
    goodInv (preloadStart s path).1 = true := by
  unfold preloadStart
  split
  · exact h
  · exact goodInv_mono s _ h rfl rfl rfl (Or.inl rfl) (Or.inl rfl) (Or.inl rfl)

/-- Lemma: the resume phase of `preloadNextTrack` preserves the invariant. -/
theorem goodInv_preResume (s : EngineState) (path : String) (res : LoadResult) (now : ℚ)
    (h : goodInv s = true) : goodInv (preloadResume s path res now) = true := by
  unfold preloadResume
  split
  · exact h
  · split
    · dsimp only
      split
      · apply goodInv_schedule
        apply goodInv_cancel
        exact goodInv_mono s _ h rfl rfl rfl (Or.inr (by simp)) (Or.inl rfl) (Or.inl rfl)
      · exact goodInv_mono s _ h rfl rfl rfl (Or.inr (by simp)) (Or.inl rfl) (Or.inl rfl)
    · exact h

/-- Lemma: `playNext` preserves the invariant. -/
theorem goodInv_playNext (s : EngineState) (path : String) (now : ℚ)
    (h : goodInv s = true) : goodInv (playNext s path now).1 = true := by
  unfold playNext
  split
  · split
    · split
      · exact h
      · dsimp only
        rw [stop_eq]
        split
        · apply goodInv_play
          apply goodInv_of
          · exact Or.inl ⟨rfl, rfl⟩
          · exact Or.inl rfl
        · apply goodInv_of
          · exact Or.inl ⟨rfl, rfl⟩
          · exact Or.inl rfl
    · exact h
  · exact h

/-- The timer-swap callback preserves the invariant. -/
theorem goodInv_fireSwap (s : EngineState) (h : goodInv s = true) :
    goodInv (fireScheduledSwap s) = true := by
  unfold fireScheduledSwap
  split
  · exact h
  · apply goodInv_of
    · exact Or.inl ⟨rfl, rfl⟩
    · exact Or.inr ⟨by simp, by simp⟩

/-- The natural-end callback preserves the invariant. -/
theorem goodInv_naturalEnd (s : EngineState) (now : ℚ) (h : goodInv s = true) :
    goodInv (naturalEnd s now) = true := by
  have hs := goodInv_spec s h
  unfold naturalEnd
  split
  · exact h
  · split
    · split
      · exact goodInv_mono (playNext s (s.nextTrackPath.getD "") now).1 _
          (goodInv_playNext s _ now h) rfl rfl rfl (Or.inl rfl) (Or.inl rfl) (Or.inl rfl)
      · rename_i hnb
        apply goodInv_of
        · left
          constructor
          · cases hst : s.schedulerTimeout with
            | none => rfl
            | some u =>
              have := (hs.1 (Or.inl (by simp [hst]))).2
              rw [hnb] at this
              cases this
          · cases hns : s.nextSourceNode with
            | none => rfl
            | some n =>
              have := (hs.1 (Or.inr (by simp [hns]))).2
              rw [hnb] at this
              cases this
        · exact Or.inl rfl
    · exact h

/-- Every engine operation preserves the invariant. -/
theorem goodInv_step (s : EngineState) (op : Op) (h : goodInv s = true) :
    goodInv (step s op) = true := by
  cases op with
  | opPlay now => exact goodInv_play s now h
  | opPause now => exact goodInv_pause s now h
  | opStop => exact goodInv_stop s
  | opReset => exact goodInv_reset s
  | opSeek t now => exact goodInv_seek s t now h
  | opSetVolume v =>
    show goodInv (setVolume s v) = true
    unfold setVolume
    dsimp only
    split
    · exact goodInv_mono s _ h rfl rfl rfl (Or.inl rfl) (Or.inl rfl) (Or.inl rfl)
    · exact goodInv_mono s _ h rfl rfl rfl (Or.inl rfl) (Or.inl rfl) (Or.inl rfl)
  | opSetMute m => exact goodInv_mono s _ h rfl rfl rfl (Or.inl rfl) (Or.inl rfl) (Or.inl rfl)
  | opSchedule now => exact goodInv_schedule s now h
  | opLoadStart path => exact goodInv_loadStart s path
  | opLoadResume path res => exact goodInv_loadResume s path res h
  | opPreloadStart path => exact goodInv_preStart s path h
  | opPreloadResume path res now => exact goodInv_preResume s path res now h
  | opPlayNext path now => exact goodInv_playNext s path now h
  | opFireSwap => exact goodInv_fireSwap s h
  | opNaturalEnd now => exact goodInv_naturalEnd s now h
  | opSetOnEnded => exact goodInv_mono s _ h rfl rfl rfl (Or.inl rfl) (Or.inl rfl) (Or.inl rfl)

/-- Every reachable state satisfies the structural invariant. -/
theorem reachable_goodInv (s : EngineState) (h : Reachable s) : goodInv s = true := by
  induction h with
  | init => rfl
  | step op hr ih => exact goodInv_step _ op ih

/-- Lemma: `scheduleNextTrack` does not change the reported position. -/
theorem currentTime_schedule (s : EngineState) (now now2 : ℚ) :
    currentTime (scheduleNextTrack s now) now2 = currentTime s now2 := by
  have hf := scheduleNextTrack_frame s now
  unfold currentTime duration
  rw [hf.1, hf.2.1, hf.2.2.2.1, hf.2.2.2.2]

/-- Full unfolding of `seek` on a playing state with a live node: the
node is torn down, the clamped offset stored, a fresh node started, and
the scheduler re-armed when a next buffer is bound. -/
theorem seek_unfold_playing (s : EngineState) (t now : ℚ) (cur : Node) (buf : Buffer)
    (hp : s.isPlaying = true) (hc : s.currentSource = some cur)
    (hb : s.currentBuffer = some buf) :
    seek s t now =
      (if s.nextBuffer.isSome then
        scheduleNextTrack
          { s with
            currentSource := some
              { id := s.nextNodeId, bufferId := buf.id, startWhen := now,
                startOffset := max 0 (min t (duration s)), stopped := false,
                connected := true, onendedSet := true }
            nextSourceNode := none
            schedulerTimeout := none
            startTime := now - max 0 (min t (duration s))
            pauseOffset := max 0 (min t (duration s))
            isPlaying := true
            nextNodeId := s.nextNodeId + 1
            stoppedNodes := (s.stoppedNodes ++ [stopNode { cur with onendedSet := false }]) ++
              (s.nextSourceNode.map stopNode).toList } now
      else
        { s with
          currentSource := some
            { id := s.nextNodeId, bufferId := buf.id, startWhen := now,
              startOffset := max 0 (min t (duration s)), stopped := false,
              connected := true, onendedSet := true }
          nextSourceNode := none
          schedulerTimeout := none
          startTime := now - max 0 (min t (duration s))
          pauseOffset := max 0 (min t (duration s))
          isPlaying := true
          nextNodeId := s.nextNodeId + 1
          stoppedNodes := (s.stoppedNodes ++ [stopNode { cur with onendedSet := false }]) ++
            (s.nextSourceNode.map stopNode).toList }) := by
  rw [seek_eq_of_playing s t now cur buf hp hc hb]
  rw [play_eq_of_ready
    { s with
      isPlaying := false
      pauseOffset := max 0 (min t (duration s))
      currentSource := none
      nextSourceNode := none
      schedulerTimeout := none
      stoppedNodes := (s.stoppedNodes ++ [stopNode { cur with onendedSet := false }]) ++
        (s.nextSourceNode.map stopNode).toList } now buf rfl hb]

/-- After `seek t`, the position reads back as the clamp of `t` into
`[0, duration]`. -/
theorem seek_position (s : EngineState) (t now : ℚ) (h : goodInv s = true)
    (buf : Buffer) (hb : s.currentBuffer = some buf) (hd : 0 ≤ duration s) :
    currentTime (seek s t now) now = max 0 (min t (duration s)) := by
  have hle : max 0 (min t (duration s)) ≤ duration s := max_le hd (min_le_right t _)
  have hbd : buf.duration = duration s := by
    simp [duration, hb]
  cases hp : s.isPlaying with
  | false =>
    rw [seek_eq_of_paused s t now buf hp hb]
    simp [currentTime, hp]
  | true =>
    obtain ⟨cur, hc⟩ := Option.isSome_iff_exists.mp ((goodInv_spec s h).2 hp).1
    rw [seek_unfold_playing s t now cur buf hp hc hb]
    split
    · rw [currentTime_schedule]
      simp only [currentTime, duration, reduceIte, sub_sub_cancel, hb]
      rw [hbd]
      exact min_eq_left hle
    · simp only [currentTime, duration, reduceIte, sub_sub_cancel, hb]
      rw [hbd]
      exact min_eq_left hle

/-- Field-level facts about an arming `scheduleNextTrack` call: the
armed handle is fresh and carries the next buffer. -/
theorem scheduleNextTrack_arm_fields (s : EngineState) (now : ℚ) (nb : Buffer) (cur : Node)
    (hnb : s.nextBuffer = some nb) (hp : s.isPlaying = true)
    (hc : s.currentSource = some cur) (hns : s.nextSourceNode = none)
    (hst : s.schedulerTimeout = none) :
    ∃ t2 : SwapTimeout,
      (scheduleNextTrack s now).schedulerTimeout = some t2 ∧
      t2.buffer = nb ∧
      t2.node.id = s.nextNodeId ∧
      (scheduleNextTrack s now).nextSourceNode = some t2.node := by
  rw [scheduleNextTrack_arm_eq s now nb cur hnb hp hc hns hst]
  refine ⟨{ node := { id := s.nextNodeId, bufferId := nb.id,
                      startWhen := now + (duration s - currentTime s now),
                      startOffset := 0, stopped := false, connected := true,
                      onendedSet := false },
            buffer := nb, path := s.nextTrackPath,
            endTime := now + (duration s - currentTime s now),
            fireAtMs := (duration s - currentTime s now) * 1000 }, rfl, rfl, rfl, rfl⟩

/-- C4: the timer-leak log of every reachable state is empty, so at
most one pending swap timer ever exists (arming never overwrites a live
handle); and when `preloadNextTrack` commits a decoded buffer while the
engine is playing, it first fully cancels any existing swap — the armed
node is stopped and disconnected — and then re-arms with the newly
preloaded buffer on a freshly created node, leaving exactly one armed
swap and no leak. -/
theorem swap_handle_unique (s : EngineState) (now : ℚ) (path : String) (buf : Buffer)
    (h : goodInv s = true) (hp : s.isPlaying = true) (hpath : s.nextTrackPath = some path) :
    (∀ s2, Reachable s2 → s2.leakedTimers = []) ∧
    (∃ t2 : SwapTimeout,
      (preloadResume s path (.ok buf) now).schedulerTimeout = some t2 ∧
      t2.buffer = buf ∧
      t2.node.id = s.nextNodeId ∧
      (preloadResume s path (.ok buf) now).nextSourceNode = some t2.node) ∧
    (preloadResume s path (.ok buf) now).leakedTimers = s.leakedTimers ∧
    (∀ n, s.nextSourceNode = some n →
      stopNode n ∈ (preloadResume s path (.ok buf) now).stoppedNodes) := by
  obtain ⟨cur, hc⟩ := Option.isSome_iff_exists.mp ((goodInv_spec s h).2 hp).1
  have hunf : preloadResume s path (.ok buf) now =
      scheduleNextTrack (cancelScheduledTrack { s with nextBuffer := some buf }) now := by
    unfold preloadResume
    dsimp only
    rw [if_pos hpath,
      if_pos (show ({ s with nextBuffer := some buf } : EngineState).isPlaying = true from hp)]
  have harm := scheduleNextTrack_arm_fields (cancelScheduledTrack { s with nextBuffer := some buf })
    now buf cur (by rw [cancelScheduledTrack_eq]) (by rw [cancelScheduledTrack_eq]; exact hp)
    (by rw [cancelScheduledTrack_eq]; exact hc) (by rw [cancelScheduledTrack_eq])
    (by rw [cancelScheduledTrack_eq])
  have hid : (cancelScheduledTrack { s with nextBuffer := some buf }).nextNodeId = s.nextNodeId := by
    rw [cancelScheduledTrack_eq]
  rw [hid] at harm
  refine ⟨fun s2 h2 => reachable_no_leak s2 h2, by rw [hunf]; exact harm, ?_, ?_⟩
  · exact preResume_leak s path (.ok buf) now
  · intro n hn
    have hstop : (preloadResume s path (.ok buf) now).stoppedNodes =
        s.stoppedNodes ++ (s.nextSourceNode.map stopNode).toList := by
      rw [hunf, scheduleNextTrack_stoppedNodes, cancelScheduledTrack_eq]
    rw [hstop, hn]
    simp

/-- Witness for C4 at `sReady` (playing, preload request "b" recorded):
committing `bufB` arms exactly one fresh swap and leaks nothing. -/
theorem swap_handle_unique_witness :
    (∀ s2, Reachable s2 → s2.leakedTimers = []) ∧
    (∃ t2 : SwapTimeout,
      (preloadResume sReady "b" (.ok bufB) 10).schedulerTimeout = some t2 ∧
      t2.buffer = bufB ∧
      t2.node.id = sReady.nextNodeId ∧
      (preloadResume sReady "b" (.ok bufB) 10).nextSourceNode = some t2.node) ∧
    (preloadResume sReady "b" (.ok bufB) 10).leakedTimers = sReady.leakedTimers := by
  have hmain := swap_handle_unique sReady 10 "b" bufB (by decide) rfl rfl
  exact ⟨hmain.1, hmain.2.1, hmain.2.2.1⟩

/-- C7: `seek` is total on every state with a bound current buffer and
clamps its target into `[0, duration]` before storing it: the position
then reads back as the clamp (hence lies in `[0, duration]`); on a
paused engine the call is exactly the pause-offset reassignment, and on
a playing engine it is the atomic pause / reassign / play sequence,
which also stops any armed next node — the in-flight scheduled swap is
cancelled within the same call. -/
theorem seek_spec (s : EngineState) (t now : ℚ) (h : goodInv s = true)
    (buf : Buffer) (hb : s.currentBuffer = some buf) (hd : 0 ≤ duration s) :
    currentTime (seek s t now) now = max 0 (min t (duration s)) ∧
    (0 : ℚ) ≤ currentTime (seek s t now) now ∧
    currentTime (seek s t now) now ≤ duration s ∧
    (s.isPlaying = false →
      seek s t now = { s with pauseOffset := max 0 (min t (duration s)) }) ∧
    (∀ cur, s.isPlaying = true → s.currentSource = some cur →
      seek s t now =
        play
          { s with
            isPlaying := false
            pauseOffset := max 0 (min t (duration s))
            currentSource := none
            nextSourceNode := none
            schedulerTimeout := none
            stoppedNodes := (s.stoppedNodes ++ [stopNode { cur with onendedSet := false }]) ++
              (s.nextSourceNode.map stopNode).toList } now) ∧
    (∀ n, s.nextSourceNode = some n → stopNode n ∈ (seek s t now).stoppedNodes) := by
  have hpos := seek_position s t now h buf hb hd
  have hle : max 0 (min t (duration s)) ≤ duration s := max_le hd (min_le_right t _)
  refine ⟨hpos, by rw [hpos]; exact le_max_left 0 _, by rw [hpos]; exact hle,
    fun hp => seek_eq_of_paused s t now buf hp hb,
    fun cur hp hc => seek_eq_of_playing s t now cur buf hp hc hb, ?_⟩
  intro n hn
  have hp : s.isPlaying = true := ((goodInv_spec s h).1 (Or.inr (by simp [hn]))).1
  obtain ⟨cur, hc⟩ := Option.isSome_iff_exists.mp ((goodInv_spec s h).2 hp).1
  rw [seek_unfold_playing s t now cur buf hp hc hb]
  split
  · rw [scheduleNextTrack_stoppedNodes]
    simp [hn]
  · simp [hn]

/-- Witness for C7 at `sArmed` with `t = 7`, `now = 10`: the invariant
holds, the position reads back as the clamp, and the armed node `nodeB`
ends up stopped. -/
theorem seek_spec_witness :
    goodInv sArmed = true ∧ (0 : ℚ) ≤ duration sArmed ∧
    currentTime (seek sArmed 7 10) 10 = max 0 (min 7 (duration sArmed)) ∧
    stopNode nodeB ∈ (seek sArmed 7 10).stoppedNodes := by
  have h : goodInv sArmed = true := by decide
  have hd : (0 : ℚ) ≤ duration sArmed := by decide
  have hmain := seek_spec sArmed 7 10 h bufA rfl hd
  exact ⟨h, hd, hmain.1, hmain.2.2.2.2.2 nodeB rfl⟩

/-- The position of the sample playing state at device-clock instant
`10`. -/
theorem sPlaying_currentTime : currentTime sPlaying 10 = 10 := by
  have h : currentTime sPlaying 10 = min (10 - 0 : ℚ) 180 := rfl
  rw [h]
  norm_num [min_def]

/-- C9 counterexample: seeking to the already-current position while
playing does restart the node: at `sPlaying` (playing `bufA`, position
`10` at `now = 10`) calling `seek` with the current position destroys
the live node (id `0`, found stopped afterwards) and installs a freshly
created node (id `1`). -/
theorem seek_restarts_node_counterexample :
    currentTime sPlaying 10 = 10 ∧
    sPlaying.currentSource.map Node.id = some 0 ∧
    (seek sPlaying 10 10).currentSource.map Node.id = some 1 ∧
    stopNode { nodeA with onendedSet := false } ∈ (seek sPlaying 10 10).stoppedNodes := by
  refine ⟨sPlaying_currentTime, rfl, by decide, by decide⟩

/-- Lemma: `scheduleNextTrack` preserves the identity of the current node. -/
theorem scheduleNextTrack_currentSource_id (s : EngineState) (now : ℚ) :
    (scheduleNextTrack s now).currentSource.map Node.id = s.currentSource.map Node.id := by
  unfold scheduleNextTrack
  cases hnb : s.nextBuffer with
  | none => rfl
  | some nb =>
    cases hp : s.isPlaying with
    | false => simp
    | true =>
      cases hc : s.currentSource with
      | none => simp [hc]
      | some cur =>
        cases hg : (s.nextSourceNode.isSome || s.schedulerTimeout.isSome) with
        | true => simp [hg, hc]
        | false => simp [hg, hc]

/-- C9 amended: seeking to the already-current position preserves the
reported position, and on a paused engine (whose pause offset is in
range) it leaves the state exactly unchanged; but on a playing engine
it does restart the node: the live node is destroyed and a freshly
created node (carrying the fresh id `nextNodeId`) becomes the current
source. -/
theorem seek_current_position_amended (s : EngineState) (now : ℚ) (h : goodInv s = true)
    (buf : Buffer) (hb : s.currentBuffer = some buf)
    (h0 : 0 ≤ currentTime s now) (h1 : currentTime s now ≤ duration s) :
    currentTime (seek s (currentTime s now) now) now = currentTime s now ∧
    (s.isPlaying = false → seek s (currentTime s now) now = s) ∧
    (s.isPlaying = true →
      (seek s (currentTime s now) now).currentSource.map Node.id = some s.nextNodeId) := by
  have hd : 0 ≤ duration s := le_trans h0 h1
  have hclamp : max 0 (min (currentTime s now) (duration s)) = currentTime s now := by
    rw [min_eq_left h1]
    exact max_eq_right h0
  refine ⟨?_, ?_, ?_⟩
  · rw [seek_position s (currentTime s now) now h buf hb hd, hclamp]
  · intro hp
    have hct : currentTime s now = s.pauseOffset := by
      simp [currentTime, hp]
    rw [seek_eq_of_paused s (currentTime s now) now buf hp hb]
    rw [hct] at hclamp
    rw [hct, hclamp]
  · intro hp
    obtain ⟨cur, hc⟩ := Option.isSome_iff_exists.mp ((goodInv_spec s h).2 hp).1
    rw [seek_unfold_playing s (currentTime s now) now cur buf hp hc hb]
    split
    · rw [scheduleNextTrack_currentSource_id]
      rfl
    · rfl

/-- Witness for the amended statement of C9 at `sPlaying` (`now = 10`): the
position is preserved and the new current node carries the fresh id
`1`. -/
theorem seek_current_position_amended_witness :
    currentTime (seek sPlaying (currentTime sPlaying 10) 10) 10 = currentTime sPlaying 10 ∧
    (seek sPlaying (currentTime sPlaying 10) 10).currentSource.map Node.id =
      some sPlaying.nextNodeId := by
  have hmain := seek_current_position_amended sPlaying 10 (by decide) bufA rfl
    (by rw [sPlaying_currentTime]; norm_num)
    (by rw [sPlaying_currentTime]; show (10 : ℚ) ≤ 180; norm_num)
  exact ⟨hmain.1, hmain.2.2 rfl⟩

end AudioEngine
